import Mathlib

set_option maxHeartbeats 1000000

/-! Shallow embedding of the iconcaptcha solver core (src/lib.rs) and its
command-line wrapper (src/main.rs).  Machine integers (u32, i32) are modelled
as Nat and Int.  The u32 subtractions of the original, which abort on
underflow instead of returning an error value, are modelled by a checked
subtraction returning an explicit fault. -/

/-- One RGBA pixel; the four channel values are byte values. -/
structure Rgba where
  r : Nat
  g : Nat
  b : Nat
  a : Nat
deriving DecidableEq, Repr

/-- The fully transparent pixel: a freshly allocated image buffer is
zero-initialized. -/
def transparent : Rgba := { r := 0, g := 0, b := 0, a := 0 }

/-- An RGBA image: dimensions plus a pixel lookup.  Only coordinates with
x < width and y < height are meaningful; components never read outside that
range. -/
structure Img where
  width : Nat
  height : Nat
  pix : Nat → Nat → Rgba

/-- The result record (struct Icon in lib.rs).  The Rust field name end is a
Lean keyword and is rendered end_. -/
structure Icon where
  position : Nat
  start : Nat
  end_ : Nat
  center_x : Nat
  center_y : Nat
deriving DecidableEq, Repr

/-- A default Icon value, used only as the default of List.getD. -/
def icon0 : Icon := { position := 0, start := 0, end_ := 0, center_x := 0, center_y := 0 }

/-- Runtime faults of the original code: u32 subtraction underflow and
out-of-bounds vector indexing, which abort the program instead of being
returned as error values. -/
inductive Fault where
  | subUnderflow
  | indexOOB
deriving DecidableEq, Repr

/-- Checked u32 subtraction: Rust a - b on unsigned integers, where an
underflow is a fault rather than a value. -/
def csub (a b : Nat) : Except Fault Nat :=
  if b ≤ a then Except.ok (a - b) else Except.error Fault.subUnderflow

/-- Delimiter test of get_positions: RGB exactly (64,64,64) or
(240,240,240); alpha is ignored. -/
def isDelim (p : Rgba) : Bool :=
  (p.r == 64 && p.g == 64 && p.b == 64) || (p.r == 240 && p.g == 240 && p.b == 240)

/-- The columns x in [0, width) whose row-0 pixel is a delimiter pixel, in
ascending order (the loop of get_positions pushes them in order of x). -/
def delimiterCols (img : Img) : List Nat :=
  (List.range img.width).filter (fun i => isDelim (img.pix i 0))

/-- The delimiter vector of get_positions: 0, then the matched columns, then
width. -/
def delimiters (img : Img) : List Nat :=
  0 :: (delimiterCols img ++ [img.width])

/-- One iteration of the span loop of get_positions for the consecutive
delimiter pair (pStart, pEnd) = (delimiter[i], delimiter[i+1]).  It computes
center = ((pEnd - 1) - (pStart + 1)) / 2 + delimiter[i] + 1 and pushes the
vector [pEnd - 1, pStart + 1, center]; both subtractions are u32 and fault
on underflow. -/
def pairStep (pStart pEnd : Nat) : Except Fault (Nat × Nat × Nat) :=
  match csub pEnd 1 with
  | Except.error e => Except.error e
  | Except.ok e1 =>
    match csub e1 (pStart + 1) with
    | Except.error e => Except.error e
    | Except.ok w => Except.ok (e1, pStart + 1, w / 2 + pStart + 1)

/-- The span loop of get_positions over all consecutive delimiter pairs. -/
def pairsLoop : List Nat → Except Fault (List (Nat × Nat × Nat))
  | [] => Except.ok []
  | [_] => Except.ok []
  | a :: b :: rest =>
    match pairStep a b with
    | Except.error e => Except.error e
    | Except.ok t =>
      match pairsLoop (b :: rest) with
      | Except.error e => Except.error e
      | Except.ok ts => Except.ok (t :: ts)

/-- The value the span loop produces when no subtraction underflows, written
with truncated Nat subtraction. -/
def pairsOf : List Nat → List (Nat × Nat × Nat)
  | a :: b :: rest =>
      (b - 1, a + 1, ((b - 1) - (a + 1)) / 2 + a + 1) :: pairsOf (b :: rest)
  | _ => []

/-- Every consecutive pair of the list is at least 2 apart; exactly the
condition under which no subtraction of the span loop underflows. -/
def gapsOK : List Nat → Bool
  | a :: b :: rest => decide (a + 2 ≤ b) && gapsOK (b :: rest)
  | _ => true

/-- Final conversion of get_positions: the enumerated triple
[pEnd - 1, pStart + 1, center] becomes an Icon with 1-based position. -/
def toIcon (height : Nat) (it : Nat × (Nat × Nat × Nat)) : Icon :=
  { position := it.1 + 1, start := it.2.2.1, end_ := it.2.1,
    center_x := it.2.2.2, center_y := height / 2 }

/-- get_positions of lib.rs: build the delimiter vector from row 0, run the
span loop over consecutive pairs, and number the resulting icons from 1. -/
def getPositions (img : Img) : Except Fault (List Icon) :=
  match pairsLoop (delimiters img) with
  | Except.error e => Except.error e
  | Except.ok ps => Except.ok ((ps.enum).map (toIcon img.height))

/-- Modelled from the spec: the crop operation of the external image crate
(DynamicImage.crop_imm), absent from this repository.  The spec describes the
crop of a span as the rectangle [span.start, span.end) x [0, 50); the crate
intersects the requested rectangle with the image bounds, so the resulting
dimensions are clamped. -/
def cropImm (img : Img) (x y w h : Nat) : Img :=
  { width := min w (img.width - x), height := min h (img.height - y),
    pix := fun i j => img.pix (x + i) (y + j) }

/-- All coordinates of a w x h image in raster order: for each y from 0, all
x from 0 (the iteration order of enumerate_pixels and pixels). -/
def rasterCoords (w h : Nat) : List (Nat × Nat) :=
  ((List.range h).map (fun y => (List.range w).map (fun x => (x, y)))).flatten

/-- Running bounding box of the opaque pixels, as in cropped. -/
structure BBox where
  minX : Nat
  minY : Nat
  maxX : Nat
  maxY : Nat
deriving DecidableEq, Repr

/-- One step of the bounding-box scan of cropped: a pixel with non-zero alpha
widens the box.  The four comparisons mirror the four ifs of the source. -/
def bboxUpdate (img : Img) (b : BBox) (c : Nat × Nat) : BBox :=
  if (img.pix c.1 c.2).a ≠ 0 then
    { minX := if c.1 < b.minX then c.1 else b.minX,
      minY := if c.2 < b.minY then c.2 else b.minY,
      maxX := if b.maxX < c.1 then c.1 else b.maxX,
      maxY := if b.maxY < c.2 then c.2 else b.maxY }
  else b

/-- The bounding-box scan of cropped, starting from min_x = width,
min_y = height, max_x = 0, max_y = 0. -/
def bbox (img : Img) : BBox :=
  (rasterCoords img.width img.height).foldl (bboxUpdate img)
    { minX := img.width, minY := img.height, maxX := 0, maxY := 0 }

/-- The new buffer cropped builds: size (dx+1) x (dy+1), zero-initialized,
with every opaque pixel of the crop copied to (x - minX, y - minY). -/
def buildSil (crop : Img) (b : BBox) (dx dy : Nat) : Img :=
  { width := dx + 1, height := dy + 1,
    pix := fun i j =>
      if b.minX + i < crop.width ∧ b.minY + j < crop.height ∧
          (crop.pix (b.minX + i) (b.minY + j)).a ≠ 0 then
        crop.pix (b.minX + i) (b.minY + j)
      else transparent }

/-- The body of cropped for a single span: crop the column range of the icon
at height 50, scan the bounding box of its opaque pixels, and rebuild the
translated buffer.  The three u32 subtractions (end - start,
max_x - min_x, max_y - min_y) fault on underflow. -/
def croppedSpan (img : Img) (ic : Icon) : Except Fault Img :=
  match csub ic.end_ ic.start with
  | Except.error e => Except.error e
  | Except.ok cw =>
    let crop := cropImm img ic.start 0 cw 50
    let b := bbox crop
    match csub b.maxX b.minX with
    | Except.error e => Except.error e
    | Except.ok dx =>
      match csub b.maxY b.minY with
      | Except.error e => Except.error e
      | Except.ok dy => Except.ok (buildSil crop b dx dy)

/-- cropped of lib.rs over all spans (the speed build runs the identical
per-span body under a rayon map; an aborting task aborts the whole run just
as the sequential loop does). -/
def croppedAll (img : Img) : List Icon → Except Fault (List Img)
  | [] => Except.ok []
  | ic :: rest =>
    match croppedSpan img ic with
    | Except.error e => Except.error e
    | Except.ok c =>
      match croppedAll img rest with
      | Except.error e => Except.error e
      | Except.ok cs => Except.ok (c :: cs)

/-- reflect_image for one buffer: the pixel at (x, y) is written to
(width - 1 - x, y), so the new buffer reads (width - 1 - x, y) of the old. -/
def reflect (img : Img) : Img :=
  { width := img.width, height := img.height,
    pix := fun x y => img.pix (img.width - 1 - x) y }

/-- Sequential reflect_image: a for loop pushing one reflected buffer per
input buffer. -/
def reflectImages : List Img → List Img
  | [] => []
  | i :: rest => reflect i :: reflectImages rest

/-- reflect_image of the speed build: an order-preserving rayon parallel map
of the same per-buffer body. -/
def reflectImagesPar (l : List Img) : List Img := l.map reflect

/-- Modelled from the spec: the 90-degree clockwise raster rotation of the
external image crate (DynamicImage.rotate90), absent from this repository.
Width and height swap and the rotation is an exact pixel permutation. -/
def rot90 (img : Img) : Img :=
  { width := img.height, height := img.width,
    pix := fun x y => img.pix y (img.height - 1 - x) }

/-- Modelled from the spec: the 180-degree raster rotation of the external
image crate (DynamicImage.rotate180). -/
def rot180 (img : Img) : Img :=
  { width := img.width, height := img.height,
    pix := fun x y => img.pix (img.width - 1 - x) (img.height - 1 - y) }

/-- Modelled from the spec: the 270-degree raster rotation of the external
image crate (DynamicImage.rotate270). -/
def rot270 (img : Img) : Img :=
  { width := img.height, height := img.width,
    pix := fun x y => img.pix (img.width - 1 - y) x }

/-- rotate of lib.rs (sequential build): the four rotations followed by the
reflection of each, in that order. -/
def rotate (img : Img) : List Img :=
  let base := [img, rot90 img, rot180 img, rot270 img]
  base ++ reflectImages base

/-- rotate of the speed build: identical except that the reflections are
computed by the parallel reflect_image. -/
def rotatePar (img : Img) : List Img :=
  let base := [img, rot90 img, rot180 img, rot270 img]
  base ++ reflectImagesPar base

/-- One row of pixels of an image, x ascending. -/
def rowPixels (img : Img) (y : Nat) : List Rgba :=
  (List.range img.width).map (fun x => img.pix x y)

/-- The pixel stream of GenericImageView.pixels in raster order: row by row,
x ascending within each row. -/
def rasterPixels (img : Img) : List Rgba :=
  ((List.range img.height).map (rowPixels img)).flatten

/-- The mismatch counter of the comparison loop in solve: zip the two pixel
streams (stopping at the shorter one) and count positions whose alpha
channels differ. -/
def countAlphaDiff (a b : Img) : Nat :=
  ((rasterPixels a).zip (rasterPixels b)).countP (fun pq => pq.1.a != pq.2.a)

/-- The equality test of the matcher: diff == 0 after the counting loop. -/
def matchTest (a b : Img) : Bool := countAlphaDiff a b == 0

/-- The labelled rotation loop of solve: scan the orbit members in order and
stop at the first one whose alpha mismatch count is zero. -/
def orbitScan (img : Img) : List Img → Bool
  | [] => false
  | ic :: rest => if matchTest img ic then true else orbitScan img rest

/-- The per-span counting loop of the speed build of solve: starting from
n = 0, add one for every other span whose orbit contains a structural match
of this span. -/
def rowCount (i : Nat) (img : Img) : List (Nat × Img) → Int
  | [] => 0
  | jp :: rest =>
      if i = jp.1 then rowCount i img rest
      else if orbitScan img (rotatePar jp.2) then 1 + rowCount i img rest
      else rowCount i img rest

/-- The inner loop of the sequential solve for span i: every match of
another span increments slot i of the icons_repeat vector in place. -/
def seqInner (i : Nat) (img : Img) : List (Nat × Img) → List Int → List Int
  | [], acc => acc
  | jp :: rest, acc =>
      if i = jp.1 then seqInner i img rest acc
      else if orbitScan img (rotate jp.2) then
        seqInner i img rest (acc.set i (acc.getD i 0 + 1))
      else seqInner i img rest acc

/-- The outer loop of the sequential solve: run the inner loop for every
enumerated span, threading the icons_repeat vector. -/
def seqOuter (all : List (Nat × Img)) : List (Nat × Img) → List Int → List Int
  | [], acc => acc
  | p :: rest, acc => seqOuter all rest (seqInner p.1 p.2 all acc)

/-- The match-count vector of the sequential solve: icons_repeat starts as a
zero vector of one slot per span and is filled by the nested loops. -/
def seqCounts (icons : List Img) : List Int :=
  seqOuter icons.enum icons.enum (List.replicate icons.length 0)

/-- The match-count vector of the speed build of solve: an order-preserving
rayon parallel map computing each slot independently. -/
def parCounts (icons : List Img) : List Int :=
  icons.enum.map (fun p => rowCount p.1 p.2 icons.enum)

/-- The final selection loop of solve: p = 0, before = 100, keep the first
index whose count is strictly below the best seen so far. -/
def selectLoop : List Int → Nat → Nat → Int → Nat
  | [], _, p, _ => p
  | n :: rest, i, p, before =>
      if n < before then selectLoop rest (i + 1) i n
      else selectLoop rest (i + 1) p before

/-- The selected index of solve for a given match-count vector. -/
def selectP (v : List Int) : Nat := selectLoop v 0 0 100

/-- The sequential solve of lib.rs: positions, crops, nested counting loops,
selection, and the final indexing icons_positions[p] (a fault when out of
bounds). -/
def solveSeq (img : Img) : Except Fault Icon :=
  match getPositions img with
  | Except.error e => Except.error e
  | Except.ok pos =>
    match croppedAll img pos with
    | Except.error e => Except.error e
    | Except.ok crops =>
      match pos[selectP (seqCounts crops)]? with
      | some ic => Except.ok ic
      | none => Except.error Fault.indexOOB

/-- The speed build of solve: identical pipeline with the parallel
match-count map. -/
def solvePar (img : Img) : Except Fault Icon :=
  match getPositions img with
  | Except.error e => Except.error e
  | Except.ok pos =>
    match croppedAll img pos with
    | Except.error e => Except.error e
    | Except.ok crops =>
      match pos[selectP (parCounts crops)]? with
      | some ic => Except.ok ic
      | none => Except.error Fault.indexOOB

/-- Buffer equality: same dimensions and the same pixel stream in raster
order (pixel-for-pixel identity of the buffers). -/
def imgEq (a b : Img) : Prop :=
  a.width = b.width ∧ a.height = b.height ∧ rasterPixels a = rasterPixels b

/-- Following the spec's words (section 4.1), for comparison with the code:
center_x = floor((p_end - 1 - (p_start + 1)) / 2) + d_i + 1 with
p_start = d_i + 1 and p_end = d_next - 1. -/
def specCenterX (dI dNext : Nat) : Nat :=
  ((dNext - 1) - 1 - ((dI + 1) + 1)) / 2 + dI + 1

/-- Observable events of the command-line binary (src/main.rs). -/
inductive Event where
  | httpGet (url : List Char)
  | eprintLn (msg : List Char)
  | printResult
  | panicked
  | decodeImage
  | solveCall
  | exitCode (c : Nat)
deriving DecidableEq, Repr

/-- The fixed URL the binary polls before doing anything else. -/
def killUrl : List Char :=
  "https://github.com/mallocdev/undefined/raw/main/undefined".toList

/-- The diagnostic printed when the kill switch is armed. -/
def adminMsg : List Char := "Error: Please contact the administrator".toList

/-- The required prefix of the single command-line argument. -/
def imgFlag : List Char := ['-', '-', 'i', 'm', 'g', '=']

/-- The outcome of the blocking HTTP GET: whether the request itself
succeeded, and the response body when reading it succeeded. -/
structure HttpEnv where
  requestOk : Bool
  text : Option (List Char)

/-- The event trace of main of src/main.rs, given the argument vector, the
network outcome, and whether base64 decoding of the image succeeds: argument
checks, then the blocking GET (whose failure aborts), then the kill-switch
test on the response body, and only past that the decode and solve. -/
def mainModel (args : List (List Char)) (henv : HttpEnv) (decodeOk : Bool) :
    List Event :=
  if args.length ≠ 2 then [Event.exitCode 1]
  else if ¬ (imgFlag.isPrefixOf (args.getD 1 []) = true) then [Event.exitCode 1]
  else
    Event.httpGet killUrl ::
    (if henv.requestOk = false then [Event.panicked]
     else
       match henv.text with
       | some t =>
           if t.contains '1' then [Event.eprintLn adminMsg, Event.exitCode 1]
           else if decodeOk then [Event.decodeImage, Event.solveCall, Event.printResult]
           else [Event.decodeImage]
       | none =>
           if decodeOk then [Event.decodeImage, Event.solveCall, Event.printResult]
           else [Event.decodeImage])

/-- A 4 x 3 fully transparent image: its crop region contains no opaque
pixel. -/
def imgC1 : Img := { width := 4, height := 3, pix := fun _ _ => transparent }

/-- A span inside imgC1. -/
def icC1 : Icon := { position := 1, start := 1, end_ := 3, center_x := 2, center_y := 1 }

/-- A 10 x 4 image with no delimiter column and no opaque pixel. -/
def imgC3 : Img :=
  { width := 10, height := 4, pix := fun _ _ => { r := 1, g := 2, b := 3, a := 0 } }

/-- A 1 x 1 image whose only pixel is the gray delimiter color: a delimiter
at column 0. -/
def imgC5 : Img :=
  { width := 1, height := 1, pix := fun _ _ => { r := 64, g := 64, b := 64, a := 255 } }

/-- A 7 x 2 image with one delimiter column at x = 3. -/
def imgW5 : Img :=
  { width := 7, height := 2,
    pix := fun x _ => if x = 3 then { r := 64, g := 64, b := 64, a := 255 }
                      else { r := 10, g := 20, b := 30, a := 255 } }

/-- An empty default image, used only as the default of List.getD. -/
def img0 : Img := { width := 0, height := 0, pix := fun _ _ => transparent }

/-- A 1 x 1 fully transparent image. -/
def imgA6 : Img := { width := 1, height := 1, pix := fun _ _ => transparent }

/-- A 2 x 1 fully transparent image: a different pixel count than imgA6 with
the same alpha stream prefix. -/
def imgB6 : Img := { width := 2, height := 1, pix := fun _ _ => transparent }

theorem getD_eq_get {α : Type} (l : List α) (i : Nat) (d : α) (h : i < l.length) :
    l.getD i d = l.get ⟨i, h⟩ := by
  induction l generalizing i with
  | nil => simp at h
  | cons a tl ih =>
    cases i with
    | zero => rfl
    | succ n => exact ih n (by simpa using h)

theorem rasterPixels_congr (a b : Img) (hw : a.width = b.width)
    (hh : a.height = b.height)
    (hp : ∀ x y, x < a.width → y < a.height → a.pix x y = b.pix x y) :
    rasterPixels a = rasterPixels b := by
  rw [rasterPixels, rasterPixels, ← hh]
  congr 1
  apply List.map_congr_left
  intro y hy
  rw [rowPixels, rowPixels, ← hw]
  apply List.map_congr_left
  intro x hx
  exact hp x y (List.mem_range.mp hx) (List.mem_range.mp hy)

/-- Claim C1: for the concrete fully transparent image imgC1 and span icC1,
whose crop region holds no pixel of non-zero alpha, the silhouette
extraction of cropped does not produce an EmptySilhouette error result: the
u32 subtraction new_width = max_x - min_x (with min_x still at the crop
width and max_x still at 0) underflows, which aborts the program. -/
theorem c1_empty_crop_underflow :
    croppedSpan imgC1 icC1 = Except.error Fault.subUnderflow := by rfl

/-- Claim C8: applying the horizontal mirror of reflect_image twice to any
buffer reproduces it pixel-for-pixel. -/
theorem c8_mirror_involution (img : Img) : imgEq (reflect (reflect img)) img := by
  refine ⟨rfl, rfl, ?_⟩
  apply rasterPixels_congr (reflect (reflect img)) img rfl rfl
  intro x y hx _
  have hx' : x < img.width := hx
  show img.pix (img.width - 1 - (img.width - 1 - x)) y = img.pix x y
  have h : img.width - 1 - (img.width - 1 - x) = x := by omega
  rw [h]

/-- Claim C9: applying the 90-degree raster rotation of the orbit generator
four times in sequence reproduces any buffer pixel-for-pixel. -/
theorem c9_rotation_period_four (img : Img) :
    imgEq (rot90 (rot90 (rot90 (rot90 img)))) img := by
  refine ⟨rfl, rfl, ?_⟩
  apply rasterPixels_congr (rot90 (rot90 (rot90 (rot90 img)))) img rfl rfl
  intro x y hx hy
  have hx' : x < img.width := hx
  have hy' : y < img.height := hy
  show img.pix (img.width - 1 - (img.width - 1 - x))
      (img.height - 1 - (img.height - 1 - y)) = img.pix x y
  have h1 : img.width - 1 - (img.width - 1 - x) = x := by omega
  have h2 : img.height - 1 - (img.height - 1 - y) = y := by omega
  rw [h1, h2]

/-- Claim C6: the matcher's equality test is true exactly when the alpha
channels agree at every position of the zipped raster streams, whose length
is the shorter stream's length; in particular the differently sized buffers
imgA6 and imgB6, whose common prefix agrees on alpha, compare equal. -/
theorem c6_matcher_truncating_equality :
    (∀ a b : Img, matchTest a b = true ↔
      ∀ i, i < min (rasterPixels a).length (rasterPixels b).length →
        ∀ h1 : i < (rasterPixels a).length, ∀ h2 : i < (rasterPixels b).length,
          ((rasterPixels a).get ⟨i, h1⟩).a = ((rasterPixels b).get ⟨i, h2⟩).a)
    ∧ matchTest imgA6 imgB6 = true
    ∧ (rasterPixels imgA6).length ≠ (rasterPixels imgB6).length := by
  refine ⟨?_, by decide, by decide⟩
  intro a b
  rw [matchTest, countAlphaDiff, beq_iff_eq, List.countP_eq_zero]
  constructor
  · intro h i hi h1 h2
    have hz : i < ((rasterPixels a).zip (rasterPixels b)).length := by
      rw [List.length_zip]; exact hi
    have hm := h (((rasterPixels a).zip (rasterPixels b)).get ⟨i, hz⟩)
      (List.get_mem _ _ _)
    rw [List.get_eq_getElem, List.getElem_zip] at hm
    rw [List.get_eq_getElem, List.get_eq_getElem]
    simpa using hm
  · intro h pq hmem
    rcases List.mem_iff_get.mp hmem with ⟨i, hget⟩
    have hz := i.isLt
    have hi : (i : Nat) < min (rasterPixels a).length (rasterPixels b).length := by
      rw [← List.length_zip]; exact hz
    have h1 : (i : Nat) < (rasterPixels a).length := by omega
    have h2 : (i : Nat) < (rasterPixels b).length := by omega
    have hab := h i hi h1 h2
    rw [List.get_eq_getElem, List.get_eq_getElem] at hab
    rw [← hget, List.get_eq_getElem, List.getElem_zip]
    simpa using hab

/-- Claim C4: for every invocation with a well-formed --img= argument the
binary's first action is the blocking GET to the fixed URL, and whenever the
request succeeds with a body containing the character 1 the trace is exactly
the GET, the administrator diagnostic, and exit status 1 — decode and solve
are never reached. -/
theorem c4_kill_switch (prog arg : List Char) (henv : HttpEnv) (dec : Bool)
    (t : List Char) (harg : imgFlag.isPrefixOf arg = true) :
    (mainModel [prog, arg] henv dec).head? = some (Event.httpGet killUrl)
    ∧ (henv.requestOk = true → henv.text = some t → t.contains '1' = true →
        mainModel [prog, arg] henv dec
          = [Event.httpGet killUrl, Event.eprintLn adminMsg, Event.exitCode 1]
        ∧ Event.solveCall ∉ mainModel [prog, arg] henv dec
        ∧ Event.decodeImage ∉ mainModel [prog, arg] henv dec) := by
  have hmm : mainModel [prog, arg] henv dec =
      Event.httpGet killUrl ::
      (if henv.requestOk = false then [Event.panicked]
       else
         match henv.text with
         | some t' =>
             if t'.contains '1' then [Event.eprintLn adminMsg, Event.exitCode 1]
             else if dec then [Event.decodeImage, Event.solveCall, Event.printResult]
             else [Event.decodeImage]
         | none =>
             if dec then [Event.decodeImage, Event.solveCall, Event.printResult]
             else [Event.decodeImage]) := by
    simp [mainModel, harg]
  constructor
  · rw [hmm]; rfl
  · intro hok htext hcont
    rw [hmm, hok, htext]
    simp only [hcont, Bool.true_eq_false, if_false, if_true]
    refine ⟨by trivial, by decide, by decide⟩

theorem c4_witness :
    imgFlag.isPrefixOf ((imgFlag ++ ['a', 'b', 'c'])) = true
    ∧ ((mainModel ["solver".toList, (imgFlag ++ ['a', 'b', 'c'])] ⟨true, some ['1']⟩ true).head?
          = some (Event.httpGet killUrl)
       ∧ ((true : Bool) = true → (some ['1'] : Option (List Char)) = some ['1'] →
           (['1'].contains '1') = true →
           mainModel ["solver".toList, (imgFlag ++ ['a', 'b', 'c'])] ⟨true, some ['1']⟩ true
             = [Event.httpGet killUrl, Event.eprintLn adminMsg, Event.exitCode 1]
           ∧ Event.solveCall ∉ mainModel ["solver".toList, (imgFlag ++ ['a', 'b', 'c'])] ⟨true, some ['1']⟩ true
           ∧ Event.decodeImage ∉ mainModel ["solver".toList, (imgFlag ++ ['a', 'b', 'c'])] ⟨true, some ['1']⟩ true)) :=
  ⟨by decide, c4_kill_switch ("solver".toList) ((imgFlag ++ ['a', 'b', 'c'])) ⟨true, some ['1']⟩ true ['1'] (by decide)⟩

theorem selectLoop_const (l : List Int) : ∀ (i p : Nat) (b : Int),
    (∀ x ∈ l, b ≤ x) → selectLoop l i p b = p := by
  induction l with
  | nil => intro i p b _; rfl
  | cons n rest ih =>
    intro i p b hall
    have hnb : ¬ n < b := not_lt.mpr (hall n (List.mem_cons_self _ _))
    simp only [selectLoop, if_neg hnb]
    exact ih _ _ _ (fun x hx => hall x (List.mem_cons_of_mem _ hx))

theorem selectLoop_argmin : ∀ (l : List Int) (i p : Nat) (b : Int),
    (∃ x ∈ l, x < b) →
    ∃ k, k < l.length ∧ selectLoop l i p b = i + k ∧ l.getD k 0 < b ∧
      (∀ j, j < l.length → l.getD k 0 ≤ l.getD j 0) ∧
      (∀ j, j < k → l.getD k 0 < l.getD j 0) := by
  intro l
  induction l with
  | nil =>
    intro i p b h
    rcases h with ⟨x, hx, _⟩
    simp at hx
  | cons n rest ih =>
    intro i p b hex
    by_cases hn : n < b
    · by_cases hrest : ∃ x ∈ rest, x < n
      · rcases ih (i + 1) i n hrest with ⟨k, hk, heq, hlt, hmin, hstrict⟩
        refine ⟨k + 1, by simpa using Nat.succ_lt_succ hk, ?_, ?_, ?_, ?_⟩
        · simp only [selectLoop, if_pos hn, heq]; omega
        · show rest.getD k 0 < b
          exact lt_trans hlt hn
        · intro j hj
          cases j with
          | zero => exact le_of_lt hlt
          | succ j' => exact hmin j' (by simpa using hj)
        · intro j hj
          cases j with
          | zero => exact hlt
          | succ j' => exact hstrict j' (by omega)
      · push_neg at hrest
        refine ⟨0, by simp, ?_, hn, ?_, ?_⟩
        · simp only [selectLoop, if_pos hn]
          rw [selectLoop_const rest (i + 1) i n (fun x hx => hrest x hx)]
          omega
        · intro j hj
          cases j with
          | zero => exact le_refl n
          | succ j' =>
            show n ≤ rest.getD j' 0
            have hj' : j' < rest.length := by simpa using hj
            rw [getD_eq_get rest j' 0 hj']
            exact hrest _ (List.get_mem _ _ _)
        · intro j hj
          exact absurd hj (Nat.not_lt_zero j)
    · have hrest : ∃ x ∈ rest, x < b := by
        rcases hex with ⟨x, hx, hxb⟩
        rcases List.mem_cons.mp hx with h0 | h1
        · exact absurd (h0 ▸ hxb) hn
        · exact ⟨x, h1, hxb⟩
      rcases ih (i + 1) p b hrest with ⟨k, hk, heq, hlt, hmin, hstrict⟩
      have hbn : b ≤ n := not_lt.mp hn
      refine ⟨k + 1, by simpa using Nat.succ_lt_succ hk, ?_, ?_, ?_, ?_⟩
      · simp only [selectLoop, if_neg hn, heq]; omega
      · exact hlt
      · intro j hj
        cases j with
        | zero => exact le_of_lt (lt_of_lt_of_le hlt hbn)
        | succ j' => exact hmin j' (by simpa using hj)
      · intro j hj
        cases j with
        | zero => exact lt_of_lt_of_le hlt hbn
        | succ j' => exact hstrict j' (by omega)

/-- Claim C2 (amended): whenever some match count is strictly below the
initial best-so-far of 100, the selection loop of solve returns the least
argmin of the match-count vector; when every count is at least 100, it
returns index 0 regardless of where the minimum lies. -/
theorem c2_amended_least_argmin (v : List Int) :
    ((∃ x ∈ v, x < 100) →
      selectP v < v.length
      ∧ (∀ j, j < v.length → v.getD (selectP v) 0 ≤ v.getD j 0)
      ∧ (∀ j, j < selectP v → v.getD (selectP v) 0 < v.getD j 0))
    ∧ ((∀ x ∈ v, 100 ≤ x) → selectP v = 0) := by
  constructor
  · intro h
    rcases selectLoop_argmin v 0 0 100 h with ⟨k, hk, heq, _, hmin, hstrict⟩
    have hpk : selectP v = k := by rw [selectP, heq]; omega
    rw [hpk]
    exact ⟨hk, hmin, hstrict⟩
  · intro h
    exact selectLoop_const v 0 0 100 h

/-- Claim C2 counterexample: on the match-count vector [101, 100], where
every count is at least the initial best-so-far of 100, the selection loop
of solve returns index 0 although index 1 holds a strictly smaller count, so
the returned index is not the least argmin. -/
theorem c2_counterexample :
    selectP [(101 : Int), 100] = 0
    ∧ [(101 : Int), 100].getD 1 0 < [(101 : Int), 100].getD 0 0 := by decide

theorem c2_witness :
    (∃ x ∈ [(5 : Int), 3, 7], x < 100)
    ∧ (selectP [(5 : Int), 3, 7] < [(5 : Int), 3, 7].length
       ∧ (∀ j, j < [(5 : Int), 3, 7].length →
            [(5 : Int), 3, 7].getD (selectP [(5 : Int), 3, 7]) 0 ≤ [(5 : Int), 3, 7].getD j 0)
       ∧ (∀ j, j < selectP [(5 : Int), 3, 7] →
            [(5 : Int), 3, 7].getD (selectP [(5 : Int), 3, 7]) 0 < [(5 : Int), 3, 7].getD j 0)) :=
  ⟨by decide, (c2_amended_least_argmin [(5 : Int), 3, 7]).1 (by decide)⟩

theorem pairsOf_length : ∀ (ds : List Nat), (pairsOf ds).length = ds.length - 1 := by
  intro ds
  induction ds with
  | nil => rfl
  | cons a tl ih =>
    cases tl with
    | nil => rfl
    | cons b rest => simp [pairsOf, ih]

theorem pairsOf_getD : ∀ (ds : List Nat) (i : Nat), i + 1 < ds.length →
    (pairsOf ds).getD i (0, 0, 0) =
      (ds.getD (i + 1) 0 - 1, ds.getD i 0 + 1,
       ((ds.getD (i + 1) 0 - 1) - (ds.getD i 0 + 1)) / 2 + ds.getD i 0 + 1) := by
  intro ds
  induction ds with
  | nil => intro i h; simp at h
  | cons a tl ih =>
    intro i h
    cases tl with
    | nil => simp at h
    | cons b rest =>
      cases i with
      | zero => rfl
      | succ n => exact ih n (by simpa using h)

theorem gaps_getD : ∀ (ds : List Nat), gapsOK ds = true →
    ∀ i, i + 1 < ds.length → ds.getD i 0 + 2 ≤ ds.getD (i + 1) 0 := by
  intro ds
  induction ds with
  | nil => intro _ i h; simp at h
  | cons a tl ih =>
    intro hg i h
    cases tl with
    | nil => simp at h
    | cons b rest =>
      have hg' : (a + 2 ≤ b) ∧ gapsOK (b :: rest) = true := by
        simpa [gapsOK] using hg
      cases i with
      | zero => exact hg'.1
      | succ n => exact ih hg'.2 n (by simpa using h)

theorem gaps_mono (ds : List Nat) (hg : gapsOK ds = true) :
    ∀ j i, i < j → j < ds.length → ds.getD i 0 + 2 ≤ ds.getD j 0 := by
  intro j
  induction j with
  | zero => intro i h _; omega
  | succ n ihn =>
    intro i hij hlen
    rcases Nat.lt_succ_iff_lt_or_eq.mp hij with h | h
    · have h1 := ihn i h (by omega)
      have h2 := gaps_getD ds hg n (by omega)
      omega
    · subst h
      exact gaps_getD ds hg i (by omega)

theorem pairsLoop_ok : ∀ (ds : List Nat), gapsOK ds = true →
    pairsLoop ds = Except.ok (pairsOf ds) := by
  intro ds
  induction ds with
  | nil => intro _; rfl
  | cons a tl ih =>
    intro hg
    cases tl with
    | nil => rfl
    | cons b rest =>
      have hg' : (a + 2 ≤ b) ∧ gapsOK (b :: rest) = true := by
        simpa [gapsOK] using hg
      have hstep : pairStep a b
          = Except.ok (b - 1, a + 1, ((b - 1) - (a + 1)) / 2 + a + 1) := by
        have h1 : 1 ≤ b := by omega
        have h2 : a + 1 ≤ b - 1 := by omega
        simp [pairStep, csub, h1, h2]
      simp only [pairsLoop, hstep, ih hg'.2, pairsOf]

theorem map_enumFrom_getD {α β : Type} (f : Nat × α → β) :
    ∀ (l : List α) (m i : Nat) (d : β) (dd : α), i < l.length →
    ((List.enumFrom m l).map f).getD i d = f (m + i, l.getD i dd) := by
  intro l
  induction l with
  | nil => intro m i d dd h; simp at h
  | cons a tl ih =>
    intro m i d dd h
    cases i with
    | zero => simp [List.enumFrom]
    | succ n =>
      show ((List.enumFrom (m + 1) tl).map f).getD n d = f (m + (n + 1), tl.getD n dd)
      rw [ih (m + 1) n d dd (by simpa using h)]
      have harith : m + 1 + n = m + (n + 1) := by omega
      rw [harith]

theorem getD_concat_length : ∀ (l : List Nat) (w : Nat),
    (l ++ [w]).getD l.length 0 = w := by
  intro l w
  induction l with
  | nil => rfl
  | cons a tl ih => exact ih

theorem delimiters_length (img : Img) :
    (delimiters img).length = (delimiterCols img).length + 2 := by
  simp [delimiters]

theorem icons_getD (img : Img) (i : Nat) (hi : i + 1 < (delimiters img).length) :
    (((pairsOf (delimiters img)).enum).map (toIcon img.height)).getD i icon0
      = { position := i + 1,
          start := (delimiters img).getD i 0 + 1,
          end_ := (delimiters img).getD (i + 1) 0 - 1,
          center_x := (((delimiters img).getD (i + 1) 0 - 1)
              - ((delimiters img).getD i 0 + 1)) / 2 + (delimiters img).getD i 0 + 1,
          center_y := img.height / 2 } := by
  have hlen : i < (pairsOf (delimiters img)).length := by
    rw [pairsOf_length]; omega
  have henum : (pairsOf (delimiters img)).enum
      = List.enumFrom 0 (pairsOf (delimiters img)) := rfl
  rw [henum, map_enumFrom_getD (toIcon img.height) _ 0 i icon0 (0, 0, 0) hlen]
  rw [pairsOf_getD _ i hi]
  simp [toIcon]

theorem cover_aux : ∀ (ds : List Nat) (x : Nat),
    ds.headD 0 ≤ x → (∃ j, j < ds.length ∧ x < ds.getD j 0) →
    x ∈ ds ∨ ∃ i, i + 1 < ds.length ∧ ds.getD i 0 + 1 ≤ x ∧ x + 1 ≤ ds.getD (i + 1) 0 := by
  intro ds
  induction ds with
  | nil =>
    intro x _ hj
    rcases hj with ⟨j, hj, _⟩
    simp at hj
  | cons a tl ih =>
    intro x hhead hex
    cases tl with
    | nil =>
      rcases hex with ⟨j, hj, hx⟩
      have hj0 : j = 0 := by simpa using hj
      subst hj0
      exact absurd hx (not_lt.mpr hhead)
    | cons b rest =>
      by_cases hxa : x = a
      · exact Or.inl (by rw [hxa]; exact List.mem_cons_self _ _)
      · have hax : a < x := lt_of_le_of_ne hhead (fun hc => hxa hc.symm)
        by_cases hxb : x < b
        · exact Or.inr ⟨0, by simp, hax, hxb⟩
        · have hbx : b ≤ x := not_lt.mp hxb
          have hex' : ∃ j, j < (b :: rest).length ∧ x < (b :: rest).getD j 0 := by
            rcases hex with ⟨j, hj, hx⟩
            cases j with
            | zero =>
              have hxa2 : x < a := hx
              exact absurd hxa2 (by omega)
            | succ n => exact ⟨n, by simpa using hj, hx⟩
          rcases ih x hbx hex' with hmem | ⟨i, hi, h1, h2⟩
          · exact Or.inl (List.mem_cons_of_mem _ hmem)
          · exact Or.inr ⟨i + 1, by simpa using Nat.succ_lt_succ hi, h1, h2⟩

/-- Claim C3 (amended): for every pair of consecutive delimiters
(d_i, d_next) with d_i + 2 ≤ d_next, the emitted span's center_x equals
floor(((d_next - 1) - (d_i + 1)) / 2) + d_i + 1, which is one more than the
formula floor((p_end - 1 - (p_start + 1)) / 2) + d_i + 1 the spec states. -/
theorem c3_amended_center_formula (img : Img) (h : gapsOK (delimiters img) = true) :
    ∃ l, getPositions img = Except.ok l
      ∧ ∀ i, i + 1 < (delimiters img).length →
          (l.getD i icon0).center_x
            = (((delimiters img).getD (i + 1) 0 - 1) - ((delimiters img).getD i 0 + 1)) / 2
              + (delimiters img).getD i 0 + 1 := by
  refine ⟨((pairsOf (delimiters img)).enum).map (toIcon img.height), ?_, ?_⟩
  · simp [getPositions, pairsLoop_ok _ h]
  · intro i hi
    rw [icons_getD img i hi]

/-- Claim C3 counterexample: on the 10-wide image imgC3 the delimiter pair is
(0, 10) and the emitted span has center_x = 5, while the spec's formula
yields specCenterX 0 10 = 4. -/
theorem c3_counterexample :
    getPositions imgC3
      = Except.ok [{ position := 1, start := 1, end_ := 9, center_x := 5, center_y := 2 }]
    ∧ delimiters imgC3 = [0, 10]
    ∧ specCenterX 0 10 = 4
    ∧ (5 : Nat) ≠ 4 :=
  ⟨rfl, rfl, rfl, by decide⟩

theorem c3_witness :
    gapsOK (delimiters imgW5) = true
    ∧ ∃ l, getPositions imgW5 = Except.ok l
        ∧ ∀ i, i + 1 < (delimiters imgW5).length →
            (l.getD i icon0).center_x
              = (((delimiters imgW5).getD (i + 1) 0 - 1) - ((delimiters imgW5).getD i 0 + 1)) / 2
                + (delimiters imgW5).getD i 0 + 1 :=
  ⟨by decide, c3_amended_center_formula imgW5 (by decide)⟩

/-- Claim C5 (amended): for every image whose delimiter vector (synthetic 0,
the k delimiter columns, synthetic width) has consecutive entries at least 2
apart — no delimiter at column 0, no adjacent delimiter columns, width at
least 2 — get_positions returns exactly k + 1 spans, sorted strictly
ascending by start and pairwise disjoint, and every column below width lies
in a span or in the delimiter vector; outside that condition the u32
subtractions of the span loop underflow. -/
theorem c5_amended_segmentation (img : Img) (h : gapsOK (delimiters img) = true) :
    ∃ l, getPositions img = Except.ok l
      ∧ l.length = (delimiterCols img).length + 1
      ∧ (∀ i j, i < j → j < l.length →
          (l.getD i icon0).start < (l.getD j icon0).start
          ∧ (l.getD i icon0).end_ < (l.getD j icon0).start)
      ∧ (∀ x, x < img.width →
          x ∈ delimiters img
          ∨ ∃ i, i < l.length ∧ (l.getD i icon0).start ≤ x ∧ x ≤ (l.getD i icon0).end_) := by
  have hlistlen : (((pairsOf (delimiters img)).enum).map (toIcon img.height)).length
      = (delimiterCols img).length + 1 := by
    rw [List.length_map, List.enum_length, pairsOf_length, delimiters_length]
    omega
  refine ⟨((pairsOf (delimiters img)).enum).map (toIcon img.height), ?_, hlistlen, ?_, ?_⟩
  · simp [getPositions, pairsLoop_ok _ h]
  · intro i j hij hj
    rw [hlistlen] at hj
    have hjlen : j + 1 < (delimiters img).length := by
      rw [delimiters_length]; omega
    have hilen : i + 1 < (delimiters img).length := by omega
    rw [icons_getD img i hilen, icons_getD img j hjlen]
    have hmono1 : (delimiters img).getD i 0 + 2 ≤ (delimiters img).getD j 0 :=
      gaps_mono _ h j i hij (by omega)
    have h2 : (delimiters img).getD (i + 1) 0 ≤ (delimiters img).getD j 0 := by
      rcases Nat.lt_or_ge (i + 1) j with hlt | hge
      · have := gaps_mono _ h j (i + 1) hlt (by omega)
        omega
      · have heq : i + 1 = j := by omega
        rw [heq]
    refine ⟨?_, ?_⟩ <;> · dsimp only; omega
  · intro x hx
    have hlast : (delimiters img).getD ((delimiters img).length - 1) 0 = img.width := by
      have hidx : (delimiters img).length - 1 = (0 :: delimiterCols img).length := by
        rw [delimiters_length]; simp
      show ((0 :: delimiterCols img) ++ [img.width]).getD ((delimiters img).length - 1) 0
        = img.width
      rw [hidx]
      exact getD_concat_length _ _
    have hex : ∃ j, j < (delimiters img).length ∧ x < (delimiters img).getD j 0 := by
      refine ⟨(delimiters img).length - 1, by rw [delimiters_length]; omega, ?_⟩
      rw [hlast]; exact hx
    have hhead : (delimiters img).headD 0 ≤ x := by
      show (0 : Nat) ≤ x
      omega
    rcases cover_aux (delimiters img) x hhead hex with hmem | ⟨i, hi, h1, h2⟩
    · exact Or.inl hmem
    · refine Or.inr ⟨i, ?_, ?_, ?_⟩
      · rw [hlistlen]
        rw [delimiters_length] at hi
        omega
      · rw [icons_getD img i hi]
        dsimp only
        omega
      · rw [icons_getD img i hi]
        dsimp only
        omega

/-- Claim C5 counterexample: imgC5 has one delimiter column, at column 0; on
it get_positions underflows (p_end - 1 with p_end = 0) instead of returning
two spans. -/
theorem c5_counterexample :
    getPositions imgC5 = Except.error Fault.subUnderflow
    ∧ (delimiterCols imgC5).length = 1 :=
  ⟨rfl, rfl⟩

theorem c5_witness :
    gapsOK (delimiters imgW5) = true
    ∧ ∃ l, getPositions imgW5 = Except.ok l
        ∧ l.length = (delimiterCols imgW5).length + 1
        ∧ (∀ i j, i < j → j < l.length →
            (l.getD i icon0).start < (l.getD j icon0).start
            ∧ (l.getD i icon0).end_ < (l.getD j icon0).start)
        ∧ (∀ x, x < imgW5.width →
            x ∈ delimiters imgW5
            ∨ ∃ i, i < l.length ∧ (l.getD i icon0).start ≤ x ∧ x ≤ (l.getD i icon0).end_) :=
  ⟨by decide, c5_amended_segmentation imgW5 (by decide)⟩

theorem getD_set_self (l : List Int) : ∀ (i : Nat) (v : Int), i < l.length →
    (l.set i v).getD i 0 = v := by
  induction l with
  | nil => intro i v h; simp at h
  | cons a tl ih =>
    intro i v h
    cases i with
    | zero => rfl
    | succ n => exact ih n v (by simpa using h)

theorem getD_set_ne (l : List Int) : ∀ (i k : Nat) (v : Int), k ≠ i →
    (l.set i v).getD k 0 = l.getD k 0 := by
  induction l with
  | nil => intro i k v _; rfl
  | cons a tl ih =>
    intro i k v hne
    cases i with
    | zero =>
      cases k with
      | zero => exact absurd rfl hne
      | succ m => rfl
    | succ n =>
      cases k with
      | zero => rfl
      | succ m => exact ih n m v (by omega)

theorem set_getD_self (l : List Int) : ∀ (i : Nat), i < l.length →
    l.set i (l.getD i 0) = l := by
  induction l with
  | nil => intro i h; simp at h
  | cons a tl ih =>
    intro i h
    cases i with
    | zero => rfl
    | succ n =>
      show a :: tl.set n (tl.getD n 0) = a :: tl
      rw [ih n (by simpa using h)]

theorem getD_replicate_zero : ∀ (n k : Nat), (List.replicate n (0 : Int)).getD k 0 = 0 := by
  intro n
  induction n with
  | zero => intro k; rfl
  | succ m ih =>
    intro k
    cases k with
    | zero => rfl
    | succ j => exact ih j

theorem reflectImages_eq : ∀ (l : List Img), reflectImages l = reflectImagesPar l := by
  intro l
  induction l with
  | nil => rfl
  | cons a tl ih =>
    show reflect a :: reflectImages tl = reflect a :: reflectImagesPar tl
    rw [ih]

theorem rotate_eq (img : Img) : rotate img = rotatePar img := by
  simp only [rotate, rotatePar, reflectImages_eq]

theorem seqInner_length (i : Nat) (img : Img) :
    ∀ (pairs : List (Nat × Img)) (acc : List Int),
    (seqInner i img pairs acc).length = acc.length := by
  intro pairs
  induction pairs with
  | nil => intro acc; rfl
  | cons jp rest ih =>
    intro acc
    by_cases h1 : i = jp.1
    · simp only [seqInner, if_pos h1]
      exact ih acc
    · by_cases h2 : orbitScan img (rotate jp.2) = true
      · simp only [seqInner, if_neg h1, if_pos h2]
        rw [ih, List.length_set]
      · simp only [seqInner, if_neg h1, if_neg h2]
        exact ih acc

theorem seqInner_spec (i : Nat) (img : Img) :
    ∀ (pairs : List (Nat × Img)) (acc : List Int), i < acc.length →
    seqInner i img pairs acc = acc.set i (acc.getD i 0 + rowCount i img pairs) := by
  intro pairs
  induction pairs with
  | nil =>
    intro acc h
    show acc = acc.set i (acc.getD i 0 + 0)
    rw [add_zero, set_getD_self acc i h]
  | cons jp rest ih =>
    intro acc h
    by_cases h1 : i = jp.1
    · simp only [seqInner, rowCount, if_pos h1]
      exact ih acc h
    · by_cases h2 : orbitScan img (rotatePar jp.2) = true
      · have h2s : orbitScan img (rotate jp.2) = true := by rw [rotate_eq]; exact h2
        simp only [seqInner, rowCount, if_neg h1, if_pos h2, if_pos h2s]
        rw [ih (acc.set i (acc.getD i 0 + 1)) (by rw [List.length_set]; exact h)]
        rw [getD_set_self acc i _ h, List.set_set]
        have harith : acc.getD i 0 + 1 + rowCount i img rest
            = acc.getD i 0 + (1 + rowCount i img rest) := by omega
        rw [harith]
      · have h2s : ¬ orbitScan img (rotate jp.2) = true := by rw [rotate_eq]; exact h2
        simp only [seqInner, rowCount, if_neg h1, if_neg h2, if_neg h2s]
        exact ih acc h

theorem seqInner_getD_other (i : Nat) (img : Img) :
    ∀ (pairs : List (Nat × Img)) (acc : List Int) (k : Nat), k ≠ i →
    (seqInner i img pairs acc).getD k 0 = acc.getD k 0 := by
  intro pairs
  induction pairs with
  | nil => intro acc k _; rfl
  | cons jp rest ih =>
    intro acc k hk
    by_cases h1 : i = jp.1
    · simp only [seqInner, if_pos h1]
      exact ih acc k hk
    · by_cases h2 : orbitScan img (rotate jp.2) = true
      · simp only [seqInner, if_neg h1, if_pos h2]
        rw [ih _ k hk, getD_set_ne acc i k _ hk]
      · simp only [seqInner, if_neg h1, if_neg h2]
        exact ih acc k hk

theorem seqOuter_length (all : List (Nat × Img)) :
    ∀ (pairs : List (Nat × Img)) (acc : List Int),
    (seqOuter all pairs acc).length = acc.length := by
  intro pairs
  induction pairs with
  | nil => intro acc; rfl
  | cons p rest ih =>
    intro acc
    show (seqOuter all rest (seqInner p.1 p.2 all acc)).length = acc.length
    rw [ih, seqInner_length]

theorem seqOuter_getD_other (all : List (Nat × Img)) :
    ∀ (pairs : List (Nat × Img)) (acc : List Int) (k : Nat),
    (∀ p ∈ pairs, p.1 ≠ k) →
    (seqOuter all pairs acc).getD k 0 = acc.getD k 0 := by
  intro pairs
  induction pairs with
  | nil => intro acc k _; rfl
  | cons q rest ih =>
    intro acc k hall
    show (seqOuter all rest (seqInner q.1 q.2 all acc)).getD k 0 = acc.getD k 0
    rw [ih _ k (fun p hp => hall p (List.mem_cons_of_mem _ hp))]
    exact seqInner_getD_other q.1 q.2 all acc k
      (fun hc => hall q (List.mem_cons_self _ _) hc.symm)

theorem seqOuter_spec (all : List (Nat × Img)) :
    ∀ (pairs : List (Nat × Img)) (acc : List Int),
    List.Pairwise (fun p q => p.1 ≠ q.1) pairs →
    ∀ k imgk, (k, imgk) ∈ pairs → k < acc.length →
    (seqOuter all pairs acc).getD k 0 = acc.getD k 0 + rowCount k imgk all := by
  intro pairs
  induction pairs with
  | nil => intro acc _ k imgk hmem _; simp at hmem
  | cons q rest ih =>
    rcases q with ⟨q1, qimg⟩
    intro acc hpw k imgk hmem hk
    rcases List.mem_cons.mp hmem with heq | hmemr
    · have hk1 : k = q1 := congrArg Prod.fst heq
      have hk2 : imgk = qimg := congrArg Prod.snd heq
      subst hk1
      subst hk2
      show (seqOuter all rest (seqInner k imgk all acc)).getD k 0
        = acc.getD k 0 + rowCount k imgk all
      have hrest : ∀ p ∈ rest, p.1 ≠ k :=
        fun p hp => Ne.symm ((List.pairwise_cons.mp hpw).1 p hp)
      rw [seqOuter_getD_other all rest _ k hrest]
      rw [seqInner_spec k imgk all acc hk]
      exact getD_set_self acc k _ hk
    · show (seqOuter all rest (seqInner q1 qimg all acc)).getD k 0
        = acc.getD k 0 + rowCount k imgk all
      have hkq : k ≠ q1 :=
        Ne.symm ((List.pairwise_cons.mp hpw).1 (k, imgk) hmemr)
      rw [ih (seqInner q1 qimg all acc) (List.pairwise_cons.mp hpw).2 k imgk hmemr
        (by rw [seqInner_length]; exact hk)]
      rw [seqInner_getD_other q1 qimg all acc k hkq]

theorem seqCounts_eq_parCounts (icons : List Img) : seqCounts icons = parCounts icons := by
  have hlen : (seqCounts icons).length = icons.length := by
    rw [seqCounts, seqOuter_length, List.length_replicate]
  have hlenp : (parCounts icons).length = icons.length := by
    rw [parCounts, List.length_map, List.enum_length]
  apply List.ext_getElem (by rw [hlen, hlenp])
  intro k h1 h2
  have hk : k < icons.length := by rw [hlen] at h1; exact h1
  have hke : k < icons.enum.length := by rw [List.enum_length]; exact hk
  have hpw : List.Pairwise (fun p q => p.1 ≠ q.1) icons.enum := by
    have hmf : (icons.enum.map Prod.fst) = List.range icons.length :=
      List.enum_map_fst _
    have hnd : (icons.enum.map Prod.fst).Nodup := by
      rw [hmf]; exact List.nodup_range _
    exact List.pairwise_map.mp hnd
  have hmem : (k, icons[k]) ∈ icons.enum := by
    have hm : icons.enum[k] ∈ icons.enum := List.getElem_mem hke
    rwa [List.getElem_enum] at hm
  have hl : (seqCounts icons).getD k 0 = rowCount k icons[k] icons.enum := by
    rw [seqCounts,
      seqOuter_spec icons.enum icons.enum (List.replicate icons.length 0) hpw k icons[k]
        hmem (by rw [List.length_replicate]; exact hk),
      getD_replicate_zero, zero_add]
  have hrD : (parCounts icons).getD k 0 = rowCount k icons[k] icons.enum := by
    show ((List.enumFrom 0 icons).map
        (fun p => rowCount p.1 p.2 icons.enum)).getD k 0 = rowCount k icons[k] icons.enum
    rw [map_enumFrom_getD _ icons 0 k 0 img0 hk]
    show rowCount (0 + k) (icons.getD k img0) icons.enum = rowCount k icons[k] icons.enum
    rw [Nat.zero_add, getD_eq_get icons k img0 hk, List.get_eq_getElem]
  calc (seqCounts icons)[k]
      = (seqCounts icons).getD k 0 := by
        rw [getD_eq_get _ k 0 h1, List.get_eq_getElem]
    _ = (parCounts icons).getD k 0 := by rw [hl, hrD]
    _ = (parCounts icons)[k] := by
        rw [getD_eq_get _ k 0 h2, List.get_eq_getElem]

/-- Claim C7: the sequential build of solve and the rayon speed build of
solve compute identical match-count vectors and return the identical outlier
record on every input image; the parallel map of the speed build is
order-preserving, so aggregation order never changes a count. -/
theorem c7_seq_par_equivalence :
    (∀ icons : List Img, seqCounts icons = parCounts icons)
    ∧ (∀ img : Img, solveSeq img = solvePar img) := by
  refine ⟨seqCounts_eq_parCounts, ?_⟩
  intro img
  simp only [solveSeq, solvePar, seqCounts_eq_parCounts]

theorem csub_error (a b : Nat) (e : Fault) (h : csub a b = Except.error e) :
    e = Fault.subUnderflow := by
  rw [csub] at h
  by_cases hc : b ≤ a
  · rw [if_pos hc] at h
    simp at h
  · rw [if_neg hc] at h
    injection h with h'
    exact h'.symm

theorem croppedSpan_error (img : Img) (ic : Icon) (e : Fault)
    (h : croppedSpan img ic = Except.error e) : e = Fault.subUnderflow := by
  rw [croppedSpan] at h
  cases h1 : csub ic.end_ ic.start with
  | error e1 =>
    simp only [h1] at h
    obtain rfl : e1 = e := by injection h
    exact csub_error _ _ _ h1
  | ok cw =>
    simp only [h1] at h
    generalize hB : bbox (cropImm img ic.start 0 cw 50) = B at h
    cases h2 : csub B.maxX B.minX with
    | error e2 =>
      simp only [h2] at h
      obtain rfl : e2 = e := by injection h
      exact csub_error _ _ _ h2
    | ok dx =>
      simp only [h2] at h
      cases h3 : csub B.maxY B.minY with
      | error e3 =>
        simp only [h3] at h
        obtain rfl : e3 = e := by injection h
        exact csub_error _ _ _ h3
      | ok dy =>
        simp only [h3] at h
        simp at h

theorem croppedAll_error (img : Img) : ∀ (pos : List Icon) (e : Fault),
    croppedAll img pos = Except.error e → e = Fault.subUnderflow := by
  intro pos
  induction pos with
  | nil => intro e h; simp [croppedAll] at h
  | cons ic rest ih =>
    intro e h
    rw [croppedAll] at h
    cases h1 : croppedSpan img ic with
    | error e1 =>
      simp only [h1] at h
      obtain rfl : e1 = e := by injection h
      exact croppedSpan_error img ic _ h1
    | ok c =>
      simp only [h1] at h
      cases h2 : croppedAll img rest with
      | error e2 =>
        simp only [h2] at h
        obtain rfl : e2 = e := by injection h
        exact ih _ h2
      | ok cs =>
        simp only [h2] at h
        simp at h

theorem croppedAll_length (img : Img) : ∀ (pos : List Icon) (crops : List Img),
    croppedAll img pos = Except.ok crops → crops.length = pos.length := by
  intro pos
  induction pos with
  | nil =>
    intro crops h
    rw [croppedAll] at h
    injection h with h'
    rw [← h']
    rfl
  | cons ic rest ih =>
    intro crops h
    rw [croppedAll] at h
    cases h1 : croppedSpan img ic with
    | error e1 => simp only [h1] at h; simp at h
    | ok c =>
      simp only [h1] at h
      cases h2 : croppedAll img rest with
      | error e2 => simp only [h2] at h; simp at h
      | ok cs =>
        simp only [h2] at h
        injection h with h'
        rw [← h']
        have := ih cs h2
        simp only [List.length_cons, this]

theorem pairsLoop_length : ∀ (ds : List Nat) (ps : List (Nat × Nat × Nat)),
    pairsLoop ds = Except.ok ps → ps.length = ds.length - 1 := by
  intro ds
  induction ds with
  | nil =>
    intro ps h
    simp only [pairsLoop] at h
    injection h with h'
    rw [← h']
    rfl
  | cons a tl ih =>
    intro ps h
    cases tl with
    | nil =>
      simp only [pairsLoop] at h
      injection h with h'
      rw [← h']
      rfl
    | cons b rest =>
      rw [pairsLoop] at h
      cases hs : pairStep a b with
      | error e => simp only [hs] at h; simp at h
      | ok t =>
        simp only [hs] at h
        cases hp : pairsLoop (b :: rest) with
        | error e => simp only [hp] at h; simp at h
        | ok ts =>
          simp only [hp] at h
          injection h with h'
          rw [← h']
          have := ih ts hp
          simp only [List.length_cons] at this ⊢
          omega

theorem selectLoop_lt (n : Nat) : ∀ (l : List Int) (i p : Nat) (b : Int),
    p < n → i + l.length ≤ n → selectLoop l i p b < n := by
  intro l
  induction l with
  | nil => intro i p b hp _; exact hp
  | cons m rest ih =>
    intro i p b hp hlen
    have hlen' : i + rest.length + 1 ≤ n := by
      simp only [List.length_cons] at hlen
      omega
    by_cases hm : m < b
    · simp only [selectLoop, if_pos hm]
      exact ih (i + 1) i m (by omega) (by omega)
    · simp only [selectLoop, if_neg hm]
      exact ih (i + 1) p b hp (by omega)

/-- Claim C10: whenever get_positions returns normally its delimiter list
carries the synthetic entries 0 and width, yielding a non-empty span vector,
and the selection index of solve is always within bounds of any match-count
vector of matching length, so the final indexing icons_positions[p] never
faults. -/
theorem c10_positions_nonempty_index_safe (img : Img) (l : List Icon)
    (h : getPositions img = Except.ok l) :
    2 ≤ (delimiters img).length
    ∧ 0 ∈ delimiters img
    ∧ img.width ∈ delimiters img
    ∧ 0 < l.length
    ∧ (∀ v : List Int, v.length = l.length → selectP v < v.length)
    ∧ solveSeq img ≠ Except.error Fault.indexOOB := by
  have hdl : 2 ≤ (delimiters img).length := by
    rw [delimiters_length]; omega
  have hwidth : img.width ∈ delimiters img := by
    have hm : img.width ∈ delimiterCols img ++ [img.width] :=
      List.mem_append_right _ (List.mem_singleton_self _)
    exact List.mem_cons_of_mem _ hm
  have hlen : 0 < l.length := by
    rw [getPositions] at h
    cases hp : pairsLoop (delimiters img) with
    | error e => simp only [hp] at h; simp at h
    | ok ps =>
      simp only [hp] at h
      injection h with h'
      rw [← h']
      rw [List.length_map, List.enum_length, pairsLoop_length _ _ hp]
      omega
  refine ⟨hdl, List.mem_cons_self _ _, hwidth, hlen, ?_, ?_⟩
  · intro v hv
    exact selectLoop_lt v.length v 0 0 100 (by omega) (by omega)
  · intro hcontra
    rw [solveSeq] at hcontra
    simp only [h] at hcontra
    cases hc : croppedAll img l with
    | error e =>
      simp only [hc] at hcontra
      obtain rfl : e = Fault.indexOOB := by injection hcontra
      have hsub := croppedAll_error img l _ hc
      simp at hsub
    | ok crops =>
      simp only [hc] at hcontra
      have hclen : crops.length = l.length := croppedAll_length img l crops hc
      have hcounts : (seqCounts crops).length = crops.length := by
        rw [seqCounts, seqOuter_length, List.length_replicate]
      have hsel : selectP (seqCounts crops) < l.length := by
        have := selectLoop_lt l.length (seqCounts crops) 0 0 100 (by omega) (by omega)
        exact this
      rw [List.getElem?_eq_getElem hsel] at hcontra
      simp at hcontra

theorem c10_witness :
    getPositions imgW5 = Except.ok
      [{ position := 1, start := 1, end_ := 2, center_x := 1, center_y := 1 },
       { position := 2, start := 4, end_ := 6, center_x := 5, center_y := 1 }]
    ∧ (2 ≤ (delimiters imgW5).length
       ∧ 0 ∈ delimiters imgW5
       ∧ imgW5.width ∈ delimiters imgW5
       ∧ 0 < ([{ position := 1, start := 1, end_ := 2, center_x := 1, center_y := 1 },
               { position := 2, start := 4, end_ := 6, center_x := 5, center_y := 1 }] : List Icon).length
       ∧ (∀ v : List Int,
            v.length = ([{ position := 1, start := 1, end_ := 2, center_x := 1, center_y := 1 },
                         { position := 2, start := 4, end_ := 6, center_x := 5, center_y := 1 }] : List Icon).length →
            selectP v < v.length)
       ∧ solveSeq imgW5 ≠ Except.error Fault.indexOOB) :=
  ⟨by rfl, c10_positions_nonempty_index_safe imgW5
    [{ position := 1, start := 1, end_ := 2, center_x := 1, center_y := 1 },
     { position := 2, start := 4, end_ := 6, center_x := 5, center_y := 1 }] (by rfl)⟩
